import Mathlib

/-!
Verification of the HireVox chat client core against its design document.

All text is modelled as `List Char` (a faithful view of JavaScript strings)
and byte streams as `List Nat` (each element below 256 in practice).
Definitions mirror the TypeScript source of `src/lib/cookieUtils.ts`,
`src/lib/axiosInstance.ts`, `src/pages/dashboard/DashboardPage.tsx`, the
`ChatHistory` component and the `AuthProvider`.
-/

/-- Whitespace characters removed by JavaScript `String.prototype.trim`
(the common ASCII subset plus NBSP and the BOM). -/
def isWs (c : Char) : Bool :=
  c = ' ' || c = '\t' || c = '\n' || c = '\r' ||
  c = (Char.ofNat 0x0b) || c = (Char.ofNat 0x0c) ||
  c = (Char.ofNat 0xa0) || c = (Char.ofNat 0xfeff)

/-- JavaScript `s.trim()` on a character list: drop whitespace from both ends. -/
def jsTrim (l : List Char) : List Char :=
  ((l.dropWhile isWs).reverse.dropWhile isWs).reverse

/-- JavaScript `s.split(sep)` for a single-character separator. The result is
always non-empty; splitting the empty string yields `[[]]`. -/
def splitOnC (sep : Char) : List Char → List (List Char)
  | [] => [[]]
  | c :: rest =>
    if c = sep then [] :: splitOnC sep rest
    else
      match splitOnC sep rest with
      | [] => [[c]]
      | s :: ss => (c :: s) :: ss

theorem splitOnC_ne_nil (sep : Char) (l : List Char) : splitOnC sep l ≠ [] := by
  cases l with
  | nil => simp [splitOnC]
  | cons c rest =>
    simp only [splitOnC]
    split
    · simp
    · split <;> simp

theorem splitOnC_of_not_mem {sep : Char} {l : List Char} (h : sep ∉ l) :
    splitOnC sep l = [l] := by
  induction l with
  | nil => rfl
  | cons c rest ih =>
    simp only [List.mem_cons, not_or] at h
    have hc : ¬ c = sep := fun e => h.1 e.symm
    simp [splitOnC, hc, ih h.2]

theorem splitOnC_append {sep : Char} {x y : List Char} (h : sep ∉ x) :
    splitOnC sep (x ++ sep :: y) = x :: splitOnC sep y := by
  induction x with
  | nil => simp [splitOnC]
  | cons c rest ih =>
    simp only [List.mem_cons, not_or] at h
    have hc : ¬ c = sep := fun e => h.1 e.symm
    simp only [List.cons_append, splitOnC, if_neg hc, List.append_eq]
    rw [ih h.2]

theorem jsTrim_eq_nil_iff (l : List Char) : jsTrim l = [] ↔ ∀ c ∈ l, isWs c := by
  unfold jsTrim
  rw [List.reverse_eq_nil_iff, List.dropWhile_eq_nil_iff]
  constructor
  · intro h c hc
    have hsplit : l.takeWhile isWs ++ l.dropWhile isWs = l :=
      List.takeWhile_append_dropWhile isWs l
    rw [← hsplit] at hc
    rcases List.mem_append.mp hc with h1 | h2
    · exact List.mem_takeWhile_imp h1
    · exact h c (List.mem_reverse.mpr h2)
  · intro h c hc
    exact h c ((List.dropWhile_sublist isWs).subset (List.mem_reverse.mp hc))

theorem jsTrim_ne_nil_of_head {c : Char} {l : List Char} (h : isWs c = false) :
    jsTrim (c :: l) ≠ [] := by
  rw [Ne, jsTrim_eq_nil_iff]
  intro hall
  have := hall c (List.mem_cons_self c l)
  rw [h] at this
  exact Bool.false_ne_true this

/-- JavaScript truthiness of a `string | undefined | null` value: an absent
value and the empty string are falsy. -/
def jsTruthy : Option (List Char) → Bool
  | some s => !s.isEmpty
  | none => false

/-- JavaScript `a || b` on string-valued operands: the first operand if
truthy, otherwise the second operand unchanged. -/
def jsOrStr (a b : Option (List Char)) : Option (List Char) :=
  if jsTruthy a then a else b

/-- The fields of a `Conversation` record used by the title logic
(`src/services/api.ts`): all optional strings. -/
structure Conversation where
  id : Option (List Char)
  session_id : Option (List Char)
  title : Option (List Char)
deriving DecidableEq

/-- `getChatTitle` from the `ChatHistory` component: stored title if truthy,
else `Chat ` plus the first 8 characters of `session_id || id`, else the
constant `Untitled Chat`. Being a total Lean function, it cannot throw. -/
def getChatTitle (c : Conversation) : List Char :=
  if jsTruthy c.title then c.title.getD []
  else
    let identifier := jsOrStr c.session_id c.id
    if jsTruthy identifier then "Chat ".toList ++ (identifier.getD []).take 8
    else "Untitled Chat".toList

/-- `messagesFetchedRef.current = activeChatId || null`: a falsy key (absent
or empty string) is stored as null (`none`). -/
def normKey : Option (List Char) → Option (List Char)
  | some k => if k = [] then none else some k
  | none => none

/-- JavaScript strict equality between `messagesFetchedRef.current`
(`string | null`) and `activeChatId` (`string | undefined`): true only when
both are strings and equal; `null === undefined` is false. -/
def guardEq : Option (List Char) → Option (List Char) → Bool
  | some c, some k => c == k
  | _, _ => false

/-- One invocation of the per-key fetch guard in the messages effect
(`DashboardPage.tsx` lines 90-95): returns whether the fetch proceeds and
the new stored key. -/
def messagesGuard (current key : Option (List Char)) : Bool × Option (List Char) :=
  if guardEq current key then (false, current) else (true, normKey key)

/-- Run a sequence of guard invocations, collecting whether each proceeded. -/
def runGuard (current : Option (List Char)) : List (Option (List Char)) → List Bool
  | [] => []
  | k :: ks =>
    let r := messagesGuard current k
    r.1 :: runGuard r.2 ks

/-- One invocation of the mount-once conversations guard
(`DashboardPage.tsx` lines 55-60): a boolean latch. -/
def convGuard (st : Bool) : Bool × Bool :=
  if st then (false, st) else (true, true)

/-- Run `n` consecutive invocations of the conversations latch. -/
def runConv (st : Bool) : Nat → List Bool
  | 0 => []
  | n + 1 =>
    let r := convGuard st
    r.1 :: runConv r.2 n

/-- Message role in the dashboard timeline. -/
inductive Role where
  | user
  | assistant
deriving DecidableEq

/-- A timeline message (`DashboardPage.tsx` interface `Message`). The
timestamp is abstracted to a natural number. -/
structure Message where
  id : List Char
  role : Role
  content : List Char
  timestamp : Nat
deriving DecidableEq

/-- One streamed frame decoded from a `data: ` line
(`ChatStreamChunk` in `src/services/api.ts`). -/
structure ChatStreamChunk where
  content : Option (List Char)
  session_id : Option (List Char)
  done : Option Bool
deriving DecidableEq

/-- The `onChunk` callback of `handlePromptSubmit`: map over the timeline and
append `chunk.content || ''` to the message whose id is the captured
assistant placeholder id, leaving every other message unchanged. -/
def applyChunk (aid : List Char) (msgs : List Message) (chunk : ChatStreamChunk) :
    List Message :=
  msgs.map fun m =>
    if m.id = aid then ⟨m.id, m.role, m.content ++ chunk.content.getD [], m.timestamp⟩
    else m

/-- The catch branch of `handlePromptSubmit`: filter out the captured
placeholder id and surface the error (the boolean models the `toast.error`
call on this path). -/
def handleSendFailure (aid : List Char) (msgs : List Message) : List Message × Bool :=
  (msgs.filter fun m => !(m.id == aid), true)

theorem foldl_applyChunk (aid : List Char) (frames : List ChatStreamChunk) :
    ∀ msgs : List Message,
      frames.foldl (applyChunk aid) msgs =
        msgs.map fun m =>
          if m.id = aid then
            ⟨m.id, m.role, m.content ++ (frames.map fun c => c.content.getD []).flatten,
              m.timestamp⟩
          else m := by
  induction frames with
  | nil =>
    intro msgs
    simp only [List.foldl_nil, List.map_nil, List.flatten_nil, List.append_nil]
    have : (fun m : Message =>
        if m.id = aid then ⟨m.id, m.role, m.content, m.timestamp⟩ else m) =
        fun m : Message => m := by
      funext m
      split <;> rfl
    rw [this]
    exact (List.map_id msgs).symm
  | cons c cs ih =>
    intro msgs
    simp only [List.foldl_cons]
    rw [ih (applyChunk aid msgs c)]
    unfold applyChunk
    rw [List.map_map]
    apply List.map_congr_left
    intro m _
    by_cases hm : m.id = aid
    · simp [hm, List.append_assoc]
    · simp [hm]

/-- C3: for every sequence of N frames carrying content fragments delivered to
the onChunk handler, the final content of the assistant placeholder equals
the concatenation of the fragments in delivery order, a frame with absent
content contributing the empty string; all other messages are untouched. -/
theorem claim3_placeholder_concat (base : List Message) (u : Message)
    (aid : List Char) (t : Nat) (frames : List ChatStreamChunk)
    (hbase : ∀ m ∈ base, m.id ≠ aid) (hu : u.id ≠ aid) :
    frames.foldl (applyChunk aid) (base ++ [u, ⟨aid, Role.assistant, [], t⟩]) =
      base ++
        [u, ⟨aid, Role.assistant, (frames.map fun c => c.content.getD []).flatten, t⟩] := by
  rw [foldl_applyChunk, List.map_append]
  congr 1
  · have hbase' : ∀ m ∈ base,
        (if m.id = aid then
          (⟨m.id, m.role, m.content ++ (frames.map fun c => c.content.getD []).flatten,
            m.timestamp⟩ : Message)
         else m) = (fun m => m) m := fun m hm => if_neg (hbase m hm)
    exact (List.map_congr_left hbase').trans (List.map_id base)
  · simp [hu]

theorem claim3_placeholder_concat_witness :
    ((∀ m ∈ ([] : List Message), m.id ≠ ['a']) ∧ (['u'] : List Char) ≠ ['a']) ∧
    [ChatStreamChunk.mk (some ['h','i']) none none,
     ChatStreamChunk.mk none none none,
     ChatStreamChunk.mk (some ['!']) none (some true)].foldl (applyChunk ['a'])
        ([] ++ [⟨['u'], Role.user, ['q'], 0⟩, ⟨['a'], Role.assistant, [], 1⟩]) =
      [] ++ [⟨['u'], Role.user, ['q'], 0⟩,
        ⟨['a'], Role.assistant,
          ([ChatStreamChunk.mk (some ['h','i']) none none,
            ChatStreamChunk.mk none none none,
            ChatStreamChunk.mk (some ['!']) none (some true)].map
              fun c => c.content.getD []).flatten, 1⟩] :=
  ⟨⟨by decide, by decide⟩,
    claim3_placeholder_concat [] ⟨['u'], Role.user, ['q'], 0⟩ ['a'] 1 _
      (by decide) (by decide)⟩

/-- C5: when a send fails, the error path removes exactly the assistant
placeholder (the captured id) from the timeline, surfaces the error, and
leaves every other message — in particular the preceding optimistic user
message — present, unchanged and in order, whatever frames had already been
folded into the placeholder before the failure. -/
theorem claim5_failure_rollback (base : List Message) (u : Message)
    (aid : List Char) (t : Nat) (frames : List ChatStreamChunk)
    (hbase : ∀ m ∈ base, m.id ≠ aid) (hu : u.id ≠ aid) :
    handleSendFailure aid
        (frames.foldl (applyChunk aid) (base ++ [u, ⟨aid, Role.assistant, [], t⟩])) =
      (base ++ [u], true) := by
  unfold handleSendFailure
  rw [foldl_applyChunk, List.map_append, List.filter_append]
  have hbase' : ∀ m ∈ base,
      (if m.id = aid then
        (⟨m.id, m.role, m.content ++ (frames.map fun c => c.content.getD []).flatten,
          m.timestamp⟩ : Message)
       else m) = (fun m => m) m := fun m hm => if_neg (hbase m hm)
  rw [(List.map_congr_left hbase').trans (List.map_id base)]
  have hkeep : base.filter (fun m => !(m.id == aid)) = base := by
    rw [List.filter_eq_self]
    intro m hm
    simp [hbase m hm]
  rw [hkeep]
  simp [hu]

theorem claim5_failure_rollback_witness :
    ((∀ m ∈ ([] : List Message), m.id ≠ ['a']) ∧ (['u'] : List Char) ≠ ['a']) ∧
    handleSendFailure ['a']
        ([ChatStreamChunk.mk (some ['h']) none none].foldl (applyChunk ['a'])
          ([] ++ [⟨['u'], Role.user, ['q'], 0⟩, ⟨['a'], Role.assistant, [], 1⟩])) =
      ([] ++ [⟨['u'], Role.user, ['q'], 0⟩], true) :=
  ⟨⟨by decide, by decide⟩,
    claim5_failure_rollback [] ⟨['u'], Role.user, ['q'], 0⟩ ['a'] 1
      [ChatStreamChunk.mk (some ['h']) none none] (by decide) (by decide)⟩

/-- C4: the per-key fetch guard allows a fetch exactly once per key across
repeated immediate calls with the same key, and allows the same key again
after the key has transitioned to an undefined or empty value and is then
reused; the mount-once conversations latch allows exactly the first call. -/
theorem claim4_fetch_guard :
    (∀ (st : Option (List Char)) (s : List Char) (n : Nat), s ≠ [] → st ≠ some s →
      runGuard st (List.replicate (n + 1) (some s)) = true :: List.replicate n false)
    ∧ (∀ s : List Char, s ≠ [] → runGuard (some s) [none, some s] = [true, true])
    ∧ (∀ s : List Char, s ≠ [] → runGuard (some s) [some [], some s] = [true, true])
    ∧ (∀ n : Nat, runConv false (n + 1) = true :: List.replicate n false) := by
  have hself : ∀ s : List Char, guardEq (some s) (some s) = true := by
    intro s
    simp [guardEq]
  have hrep : ∀ (s : List Char), s ≠ [] → ∀ n,
      runGuard (some s) (List.replicate n (some s)) = List.replicate n false := by
    intro s hs n
    induction n with
    | zero => rfl
    | succ k ih =>
      rw [List.replicate_succ, runGuard]
      simp only [messagesGuard, hself s, if_true, ih, List.replicate_succ]
  have hne : ∀ (st : Option (List Char)) (s : List Char), st ≠ some s →
      guardEq st (some s) = false := by
    intro st s hst
    cases st with
    | none => rfl
    | some c =>
      have : c ≠ s := fun e => hst (by rw [e])
      simp [guardEq, this]
  have hconv : ∀ n, runConv true n = List.replicate n false := by
    intro n
    induction n with
    | zero => rfl
    | succ k ih => simp [runConv, convGuard, ih, List.replicate_succ]
  refine ⟨?_, ?_, ?_, ?_⟩
  · intro st s n hs hst
    rw [List.replicate_succ, runGuard]
    simp only [messagesGuard, hne st s hst, Bool.false_eq_true, if_false]
    have hnorm : normKey (some s) = some s := by simp [normKey, hs]
    rw [hnorm, hrep s hs n]
  · intro s hs
    have h1 : guardEq (some s) none = false := rfl
    simp only [runGuard, messagesGuard, h1, Bool.false_eq_true, if_false, normKey]
    have h2 : guardEq none (some s) = false := rfl
    simp [h2, normKey, hs]
  · intro s hs
    have h1 : guardEq (some s) (some []) = (s == []) := rfl
    have h1' : (s == []) = false := by simp [hs]
    simp only [runGuard, messagesGuard, h1, h1', Bool.false_eq_true, if_false]
    have h2 : normKey (some []) = none := by simp [normKey]
    have h3 : guardEq none (some s) = false := rfl
    simp [h2, h3, normKey, hs]
  · intro n
    simp [runConv, convGuard, hconv n]

theorem claim4_fetch_guard_witness :
    ((['k'] : List Char) ≠ [] ∧ (none : Option (List Char)) ≠ some ['k']) ∧
    runGuard none (List.replicate 2 (some ['k'])) = [true, false] ∧
    runGuard (some ['k']) [none, some ['k']] = [true, true] ∧
    runGuard (some ['k']) [some [], some ['k']] = [true, true] ∧
    runConv false 2 = [true, false] :=
  ⟨⟨by decide, by decide⟩,
    claim4_fetch_guard.1 none ['k'] 1 (by decide) (by decide),
    claim4_fetch_guard.2.1 ['k'] (by decide),
    claim4_fetch_guard.2.2.1 ['k'] (by decide),
    claim4_fetch_guard.2.2.2 1⟩

/-- C9: the display-title function is pure and total: it returns the stored
title when truthy, otherwise `Chat ` plus the first 8 characters of the
identifier (`session_id || id`) when one is truthy, otherwise the constant
placeholder; as a total function it never throws. -/
theorem claim9_display_title (c : Conversation) :
    (∀ t, c.title = some t → t ≠ [] → getChatTitle c = t)
    ∧ (jsTruthy c.title = false →
        ∀ i, jsOrStr c.session_id c.id = some i → i ≠ [] →
          getChatTitle c = "Chat ".toList ++ i.take 8)
    ∧ (jsTruthy c.title = false → jsTruthy (jsOrStr c.session_id c.id) = false →
        getChatTitle c = "Untitled Chat".toList) := by
  refine ⟨?_, ?_, ?_⟩
  · intro t ht htne
    unfold getChatTitle
    rw [ht]
    have : jsTruthy (some t) = true := by simp [jsTruthy, htne]
    simp [this]
  · intro htitle i hi hine
    have hti : jsTruthy (some i) = true := by simp [jsTruthy, hine]
    simp only [getChatTitle, htitle, Bool.false_eq_true, if_false, hi, hti, if_true,
      Option.getD_some]
  · intro htitle hid
    simp only [getChatTitle, htitle, hid, Bool.false_eq_true, if_false]

theorem claim9_display_title_witness :
    getChatTitle ⟨none, none, some ['T']⟩ = ['T'] ∧
    getChatTitle ⟨none, some ['a','b','c','d','e','f','g','h','i'], none⟩ =
      "Chat ".toList ++ ['a','b','c','d','e','f','g','h','i'].take 8 ∧
    getChatTitle ⟨some [], none, none⟩ = "Untitled Chat".toList :=
  ⟨(claim9_display_title ⟨none, none, some ['T']⟩).1 ['T'] rfl (by decide),
    (claim9_display_title ⟨none, some ['a','b','c','d','e','f','g','h','i'], none⟩).2.1
      (by decide) ['a','b','c','d','e','f','g','h','i'] (by decide) (by decide),
    (claim9_display_title ⟨some [], none, none⟩).2.2 (by decide) (by decide)⟩

/-- The `sameSite` cookie attribute values. -/
inductive SameSite where
  | strict
  | lax
  | none_
deriving DecidableEq

/-- Rendering of a `sameSite` value into the cookie string. -/
def sameSiteStr : SameSite → List Char
  | SameSite.strict => "strict".toList
  | SameSite.lax => "lax".toList
  | SameSite.none_ => "none".toList

/-- The optional `options` argument of `setCookie`. -/
structure CookieOptions where
  secure : Option Bool
  sameSite : Option SameSite
deriving DecidableEq

/-- The browsing context observed at publish time: the page origin, the API
origin derived from `API_ORIGIN`, and the page protocol. -/
structure PageEnv where
  pageOrigin : List Char
  apiOrigin : List Char
  protocol : List Char
deriving DecidableEq

/-- `currentUrl.origin !== apiOrigin.origin`, computed at publish time. -/
def isCrossOrigin (env : PageEnv) : Bool :=
  !(env.pageOrigin == env.apiOrigin)

/-- `currentUrl.protocol === 'https:'`. -/
def isHttpsOf (env : PageEnv) : Bool :=
  env.protocol == "https:".toList

/-- The secure-flag computation of the first `setCookie` variant
(`cookieUtils.ts` lines 113-116):
`options?.secure ?? (options?.sameSite === 'none' && isHttps) ?? (isCrossOrigin && isHttps)`.
The middle operand is a boolean, hence never nullish, so the JavaScript `??`
chain can only ever select the first or middle operand; the embedding wraps
the intermediate result in `some` to reflect its non-nullish type exactly. -/
def shouldUseSecure1 (options : Option CookieOptions) (isCross isHttps : Bool) : Bool :=
  let a : Option Bool := options.bind (fun o => o.secure)
  let x : Bool := (options.bind (fun o => o.sameSite) == some SameSite.none_) && isHttps
  let step1 : Bool := a.getD x
  (some step1).getD (isCross && isHttps)

/-- The sameSite computation of the first `setCookie` variant
(lines 120-126): an explicit option wins; otherwise cross-origin picks
`none` on HTTPS and falls back to `lax` on plain HTTP; same-origin is `lax`. -/
def sameSiteValue1 (options : Option CookieOptions) (isCross isHttps : Bool) : SameSite :=
  match options.bind (fun o => o.sameSite) with
  | some ss => ss
  | none => if isCross then (if isHttps then SameSite.none_ else SameSite.lax)
            else SameSite.lax

/-- The cookie string assembled by the first `setCookie` variant:
`name=encodedValue` then expires, path, secure and samesite segments.
`enc` models `encodeURIComponent` and `expiresOf` models the
`expires=...toUTCString()` segment for a given day count; `if (days)` treats
zero as falsy. -/
def setCookie1String (enc : List Char → List Char) (expiresOf : Nat → List Char)
    (name value : List Char) (days : Option Nat) (options : Option CookieOptions)
    (env : PageEnv) : List Char :=
  let cross := isCrossOrigin env
  let https := isHttpsOf env
  let expires := match days with
    | some d => if d = 0 then [] else expiresOf d
    | none => []
  let secure := if shouldUseSecure1 options cross https then "; secure".toList else []
  let sameSite := "; samesite=".toList ++ sameSiteStr (sameSiteValue1 options cross https)
  name ++ ['='] ++ enc value ++ expires ++ "; path=/".toList ++ secure ++ sameSite

/-- The secure-flag computation of the second `setCookie` variant
(lines 284-285): `options?.secure || options?.sameSite === 'none' || isCrossOrigin`. -/
def useSecure2 (options : Option CookieOptions) (isCross : Bool) : Bool :=
  (options.bind (fun o => o.secure)).getD false ||
  (options.bind (fun o => o.sameSite) == some SameSite.none_) || isCross

/-- The sameSite computation of the second `setCookie` variant (line 288):
`options?.sameSite || (isCrossOrigin ? 'none' : 'lax')`. -/
def sameSiteValue2 (options : Option CookieOptions) (isCross : Bool) : SameSite :=
  match options.bind (fun o => o.sameSite) with
  | some ss => ss
  | none => if isCross then SameSite.none_ else SameSite.lax

/-- The cookie string assembled by the second `setCookie` variant. -/
def setCookie2String (enc : List Char → List Char) (expiresOf : Nat → List Char)
    (name value : List Char) (days : Option Nat) (options : Option CookieOptions)
    (env : PageEnv) : List Char :=
  let cross := isCrossOrigin env
  let expires := match days with
    | some d => if d = 0 then [] else expiresOf d
    | none => []
  let secure := if useSecure2 options cross then "; secure".toList else []
  let sameSite := "; samesite=".toList ++ sameSiteStr (sameSiteValue2 options cross)
  name ++ ['='] ++ enc value ++ expires ++ "; path=/".toList ++ secure ++ sameSite

/-- The options `setAuthTokenCookie` (AuthProvider) passes to `setCookie`:
`secure: isCrossOrigin || protocol === 'https:'`,
`sameSite: isCrossOrigin ? 'none' : 'lax'`, decided from the origins
observed at publish time. -/
def authCookieOptions (env : PageEnv) : CookieOptions :=
  ⟨some (isCrossOrigin env || isHttpsOf env),
    some (if isCrossOrigin env then SameSite.none_ else SameSite.lax)⟩

/-- The two cookie strings written by `setAuthTokenCookie` (the
`sb-<ref>-auth-token` cookie and the generic `auth_token` cookie, both with
a 7-day expiry) when the imported `setCookie` is the first variant. -/
def setAuthTokenCookieStrings1 (enc : List Char → List Char)
    (expiresOf : Nat → List Char) (projectRef token : List Char) (env : PageEnv) :
    List Char × List Char :=
  (setCookie1String enc expiresOf ("sb-".toList ++ projectRef ++ "-auth-token".toList)
      token (some 7) (some (authCookieOptions env)) env,
   setCookie1String enc expiresOf "auth_token".toList token (some 7)
      (some (authCookieOptions env)) env)

/-- The same two cookie strings when the imported `setCookie` is the second
variant. -/
def setAuthTokenCookieStrings2 (enc : List Char → List Char)
    (expiresOf : Nat → List Char) (projectRef token : List Char) (env : PageEnv) :
    List Char × List Char :=
  (setCookie2String enc expiresOf ("sb-".toList ++ projectRef ++ "-auth-token".toList)
      token (some 7) (some (authCookieOptions env)) env,
   setCookie2String enc expiresOf "auth_token".toList token (some 7)
      (some (authCookieOptions env)) env)

theorem secure_infix_setCookie1 {enc : List Char → List Char}
    {expiresOf : Nat → List Char} {name value : List Char} {days : Option Nat}
    {options : Option CookieOptions} {env : PageEnv}
    (h : shouldUseSecure1 options (isCrossOrigin env) (isHttpsOf env) = true) :
    "; secure".toList <:+: setCookie1String enc expiresOf name value days options env := by
  simp only [setCookie1String, h, if_true]
  exact List.infix_append _ _ _

theorem samesite_infix_setCookie1 {enc : List Char → List Char}
    {expiresOf : Nat → List Char} {name value : List Char} {days : Option Nat}
    {options : Option CookieOptions} {env : PageEnv} {v : SameSite}
    (h : sameSiteValue1 options (isCrossOrigin env) (isHttpsOf env) = v) :
    ("samesite=".toList ++ sameSiteStr v) <:+:
      setCookie1String enc expiresOf name value days options env := by
  simp only [setCookie1String, h]
  have hsplit : "; samesite=".toList ++ sameSiteStr v =
      "; ".toList ++ ("samesite=".toList ++ sameSiteStr v) := by
    cases v <;> rfl
  rw [hsplit, ← List.append_assoc]
  exact ⟨_, [], by rw [List.append_nil]⟩

theorem secure_infix_setCookie2 {enc : List Char → List Char}
    {expiresOf : Nat → List Char} {name value : List Char} {days : Option Nat}
    {options : Option CookieOptions} {env : PageEnv}
    (h : useSecure2 options (isCrossOrigin env) = true) :
    "; secure".toList <:+: setCookie2String enc expiresOf name value days options env := by
  simp only [setCookie2String, h, if_true]
  exact List.infix_append _ _ _

theorem samesite_infix_setCookie2 {enc : List Char → List Char}
    {expiresOf : Nat → List Char} {name value : List Char} {days : Option Nat}
    {options : Option CookieOptions} {env : PageEnv} {v : SameSite}
    (h : sameSiteValue2 options (isCrossOrigin env) = v) :
    ("samesite=".toList ++ sameSiteStr v) <:+:
      setCookie2String enc expiresOf name value days options env := by
  simp only [setCookie2String, h]
  have hsplit : "; samesite=".toList ++ sameSiteStr v =
      "; ".toList ++ ("samesite=".toList ++ sameSiteStr v) := by
    cases v <;> rfl
  rw [hsplit, ← List.append_assoc]
  exact ⟨_, [], by rw [List.append_nil]⟩

/-- C7: every publish of the session token performed while the API origin
differs from the page origin writes cookie strings carrying `samesite=none`
and the secure attribute; a same-origin publish uses the lax default. This
holds for both `setAuthTokenCookie` cookies through either `setCookie`
variant, and the determination is a function of the origins observed at
publish time (the `env` argument). -/
theorem claim7_cross_origin_publish (enc : List Char → List Char)
    (expiresOf : Nat → List Char) (projectRef token : List Char) (env : PageEnv) :
    (env.pageOrigin ≠ env.apiOrigin →
      ∀ s ∈ [(setAuthTokenCookieStrings1 enc expiresOf projectRef token env).1,
             (setAuthTokenCookieStrings1 enc expiresOf projectRef token env).2,
             (setAuthTokenCookieStrings2 enc expiresOf projectRef token env).1,
             (setAuthTokenCookieStrings2 enc expiresOf projectRef token env).2],
        "; secure".toList <:+: s ∧ "samesite=none".toList <:+: s)
    ∧ (env.pageOrigin = env.apiOrigin →
      ∀ s ∈ [(setAuthTokenCookieStrings1 enc expiresOf projectRef token env).1,
             (setAuthTokenCookieStrings1 enc expiresOf projectRef token env).2,
             (setAuthTokenCookieStrings2 enc expiresOf projectRef token env).1,
             (setAuthTokenCookieStrings2 enc expiresOf projectRef token env).2],
        "samesite=lax".toList <:+: s) := by
  constructor
  · intro hne
    have hcross : isCrossOrigin env = true := by
      have : (env.pageOrigin == env.apiOrigin) = false := beq_eq_false_iff_ne.mpr hne
      simp [isCrossOrigin, this]
    have hopts : authCookieOptions env = ⟨some true, some SameSite.none_⟩ := by
      simp [authCookieOptions, hcross]
    have hsec1 : shouldUseSecure1 (some (authCookieOptions env)) (isCrossOrigin env)
        (isHttpsOf env) = true := by
      rw [hopts]
      simp [shouldUseSecure1]
    have hss1 : sameSiteValue1 (some (authCookieOptions env)) (isCrossOrigin env)
        (isHttpsOf env) = SameSite.none_ := by
      rw [hopts]
      simp [sameSiteValue1]
    have hsec2 : useSecure2 (some (authCookieOptions env)) (isCrossOrigin env) = true := by
      rw [hopts]
      simp [useSecure2]
    have hss2 : sameSiteValue2 (some (authCookieOptions env)) (isCrossOrigin env) =
        SameSite.none_ := by
      rw [hopts]
      simp [sameSiteValue2]
    intro s hs
    simp only [setAuthTokenCookieStrings1, setAuthTokenCookieStrings2,
      List.mem_cons, List.not_mem_nil, or_false] at hs
    rcases hs with h | h | h | h <;> subst h
    · exact ⟨secure_infix_setCookie1 hsec1, samesite_infix_setCookie1 hss1⟩
    · exact ⟨secure_infix_setCookie1 hsec1, samesite_infix_setCookie1 hss1⟩
    · exact ⟨secure_infix_setCookie2 hsec2, samesite_infix_setCookie2 hss2⟩
    · exact ⟨secure_infix_setCookie2 hsec2, samesite_infix_setCookie2 hss2⟩
  · intro heq
    have hcross : isCrossOrigin env = false := by
      simp [isCrossOrigin, heq]
    have hopts : (authCookieOptions env).sameSite = some SameSite.lax := by
      simp [authCookieOptions, hcross]
    have hss1 : sameSiteValue1 (some (authCookieOptions env)) (isCrossOrigin env)
        (isHttpsOf env) = SameSite.lax := by
      simp [sameSiteValue1, hopts]
    have hss2 : sameSiteValue2 (some (authCookieOptions env)) (isCrossOrigin env) =
        SameSite.lax := by
      simp [sameSiteValue2, hopts]
    intro s hs
    simp only [setAuthTokenCookieStrings1, setAuthTokenCookieStrings2,
      List.mem_cons, List.not_mem_nil, or_false] at hs
    rcases hs with h | h | h | h <;> subst h
    · exact samesite_infix_setCookie1 hss1
    · exact samesite_infix_setCookie1 hss1
    · exact samesite_infix_setCookie2 hss2
    · exact samesite_infix_setCookie2 hss2

theorem claim7_cross_origin_publish_witness :
    ((("a".toList : List Char) ≠ "b".toList) ∧
      "; secure".toList <:+:
        (setAuthTokenCookieStrings1 (fun s => s) (fun _ => []) "p".toList "t".toList
          ⟨"a".toList, "b".toList, "http:".toList⟩).1) ∧
    (("a".toList : List Char) = "a".toList ∧
      "samesite=lax".toList <:+:
        (setAuthTokenCookieStrings2 (fun s => s) (fun _ => []) "p".toList "t".toList
          ⟨"a".toList, "a".toList, "http:".toList⟩).1) :=
  ⟨⟨by decide,
    ((claim7_cross_origin_publish (fun s => s) (fun _ => []) "p".toList "t".toList
        ⟨"a".toList, "b".toList, "http:".toList⟩).1 (by decide) _
      (by simp)).1⟩,
   ⟨rfl,
    (claim7_cross_origin_publish (fun s => s) (fun _ => []) "p".toList "t".toList
        ⟨"a".toList, "a".toList, "http:".toList⟩).2 rfl _
      (by simp)⟩⟩

/-- C10: in the first `setCookie` variant with the options argument omitted,
the computed secure flag does not depend on the cross-origin determination
(the third `??` operand is unreachable because the middle operand is a
non-nullish boolean); in particular a cross-origin HTTPS publish without
options yields `samesite=none` with no secure segment in the cookie string. -/
theorem claim10_secure_flag_independent :
    (∀ c1 c2 https : Bool, shouldUseSecure1 none c1 https = shouldUseSecure1 none c2 https)
    ∧ (∀ (enc : List Char → List Char) (expiresOf : Nat → List Char)
        (name value : List Char) (env : PageEnv),
        isCrossOrigin env = true → isHttpsOf env = true →
        setCookie1String enc expiresOf name value none none env =
          name ++ ['='] ++ enc value ++ "; path=/".toList ++ "; samesite=none".toList) := by
  constructor
  · intro c1 c2 https
    simp [shouldUseSecure1]
  · intro enc expiresOf name value env hcross https
    have hsec : shouldUseSecure1 none (isCrossOrigin env) (isHttpsOf env) = false := by
      simp [shouldUseSecure1]
    have hss : sameSiteValue1 none (isCrossOrigin env) (isHttpsOf env) =
        SameSite.none_ := by
      simp [sameSiteValue1, hcross, https]
    simp only [setCookie1String, hsec, Bool.false_eq_true, if_false, hss]
    simp only [List.append_nil, List.append_assoc]
    rfl

theorem claim10_secure_flag_independent_witness :
    (shouldUseSecure1 none true true = shouldUseSecure1 none false true) ∧
    (isCrossOrigin ⟨"a".toList, "b".toList, "https:".toList⟩ = true ∧
     isHttpsOf ⟨"a".toList, "b".toList, "https:".toList⟩ = true ∧
     setCookie1String (fun s => s) (fun _ => []) "n".toList "v".toList none none
        ⟨"a".toList, "b".toList, "https:".toList⟩ =
       "n".toList ++ ['='] ++ "v".toList ++ "; path=/".toList ++
         "; samesite=none".toList) :=
  ⟨claim10_secure_flag_independent.1 true false true,
   by decide,
   by decide,
   claim10_secure_flag_independent.2 (fun s => s) (fun _ => []) "n".toList "v".toList
     ⟨"a".toList, "b".toList, "https:".toList⟩ (by decide) (by decide)⟩

/-- The literal `auth_token=` searched by the interceptor's regular
expression. -/
def authTokenLit : List Char := "auth_token=".toList

/-- Capture group `([^;]*)` of the interceptor regex: everything up to the
next semicolon. -/
def takeUntilSemi (l : List Char) : List Char :=
  l.takeWhile fun c => !(c == ';')

/-- Executable model of the first match of
`/(?:^|;\s*)auth_token=([^;]*)/` against the cookie string, returning the
capture. `mode` is true at a position where a match may start: the start of
the string, or just after a semicolon followed only by whitespace. -/
def findAuth (mode : Bool) : List Char → Option (List Char)
  | [] => none
  | c :: rest =>
    if mode && authTokenLit.isPrefixOf (c :: rest) then
      some (takeUntilSemi ((c :: rest).drop authTokenLit.length))
    else if c = ';' then findAuth true rest
    else if mode && isWs c then findAuth true rest
    else findAuth false rest

/-- `document.cookie.match(/(?:^|;\s*)auth_token=([^;]*)/)`, first capture. -/
def findAuthTokenValue (cookie : List Char) : Option (List Char) :=
  findAuth true cookie

/-- One iteration of the interceptor's fallback loop over
`document.cookie.split(';')`: trim, split the piece on `=`, take the name
and the segment after the first `=`; skip falsy names or values; accept
`sb-*` names containing `-auth-token` or `access_token`, decoding the value
with `dec` (modelling `decodeURIComponent`). -/
def cookiePairToken (dec : List Char → List Char) (part : List Char) :
    Option (List Char) :=
  let t := jsTrim part
  let segs := splitOnC '=' t
  let name := segs.headD []
  let value := (segs.drop 1).headD []
  if name = [] ∨ value = [] then none
  else if "sb-".toList.isPrefixOf name ∧ "-auth-token".toList <:+: name then
    some (dec value)
  else if "sb-".toList.isPrefixOf name ∧ "access_token".toList <:+: name then
    some (dec value)
  else none

/-- The interceptor's provider-pattern fallback: first matching cookie wins. -/
def providerToken (dec : List Char → List Char) (cookie : List Char) :
    Option (List Char) :=
  (splitOnC ';' cookie).findSome? (cookiePairToken dec)

/-- The complete token extraction of the axios request interceptor
(`axiosInstance.ts` lines 24-51), also duplicated in `sendChatMessage`
(`cookieUtils.ts` lines 560-582): the canonical `auth_token` cookie is
preferred when its capture is non-empty; otherwise the provider-pattern
loop runs. -/
def authTokenLookup (dec : List Char → List Char) (cookie : List Char) :
    Option (List Char) :=
  match findAuthTokenValue cookie with
  | some v => if v = [] then providerToken dec cookie else some (dec v)
  | none => providerToken dec cookie

/-- Result of building request headers: the Authorization value, if any, and
whether the no-token warning was logged. -/
structure AttachResult where
  authorization : Option (List Char)
  warned : Bool
deriving DecidableEq

/-- The axios request interceptor (`axiosInstance.ts` lines 22-59): with a
falsy (empty) cookie string the whole block is skipped; otherwise the token
is extracted, a truthy token sets `Authorization: Bearer <token>`, and a
missing or falsy token logs a warning. The embedding is total, mirroring
that this path throws no exception. -/
def interceptorAttach (dec : List Char → List Char) (cookie : List Char) :
    AttachResult :=
  if cookie = [] then ⟨none, false⟩
  else
    match authTokenLookup dec cookie with
    | some t => if t = [] then ⟨none, true⟩ else ⟨some ("Bearer ".toList ++ t), false⟩
    | none => ⟨none, true⟩

/-- C6 counterexample: with cookie storage entirely empty — a state in which
no auth token is present in any recognized location — the interceptor skips
the block and logs no warning, contradicting the claim that a warning is
always logged when no token is found. -/
theorem claim6_counterexample :
    interceptorAttach (fun s => s) [] = ⟨none, false⟩ ∧
    authTokenLookup (fun s => s) [] = none := by
  constructor
  · rfl
  · rfl

/-- C6 (amended): when the cookie string is empty the block is skipped, so no
Authorization header is set and no warning is logged; when the cookie string
is non-empty and no token is found in any recognized location, the headers
carry no Authorization field and a warning is logged, with no exception
thrown; when a token is found (truthy), `Authorization: Bearer <token>` is
set; the canonical `auth_token` cookie is preferred over the provider
pattern whenever its capture is non-empty. -/
theorem claim6_attach_headers (dec : List Char → List Char) (cookie : List Char) :
    (cookie = [] → interceptorAttach dec cookie = ⟨none, false⟩)
    ∧ (cookie ≠ [] → authTokenLookup dec cookie = none →
        interceptorAttach dec cookie = ⟨none, true⟩)
    ∧ (∀ t, cookie ≠ [] → authTokenLookup dec cookie = some t → t ≠ [] →
        interceptorAttach dec cookie = ⟨some ("Bearer ".toList ++ t), false⟩)
    ∧ (∀ v, findAuthTokenValue cookie = some v → v ≠ [] →
        authTokenLookup dec cookie = some (dec v)) := by
  refine ⟨?_, ?_, ?_, ?_⟩
  · intro h
    simp [interceptorAttach, h]
  · intro hne hnone
    simp [interceptorAttach, hne, hnone]
  · intro t hne hsome htne
    simp [interceptorAttach, hne, hsome, htne]
  · intro v hv hvne
    simp [authTokenLookup, hv, hvne]

theorem claim6_attach_headers_witness :
    (("x".toList : List Char) ≠ [] ∧
      authTokenLookup (fun s => s) "x".toList = none ∧
      interceptorAttach (fun s => s) "x".toList = ⟨none, true⟩) ∧
    (("auth_token=t7".toList : List Char) ≠ [] ∧
      findAuthTokenValue "auth_token=t7".toList = some "t7".toList ∧
      authTokenLookup (fun s => s) "auth_token=t7".toList = some "t7".toList ∧
      interceptorAttach (fun s => s) "auth_token=t7".toList =
        ⟨some ("Bearer ".toList ++ "t7".toList), false⟩) :=
  ⟨⟨by decide, by decide,
     (claim6_attach_headers (fun s => s) "x".toList).2.1 (by decide) (by decide)⟩,
   ⟨by decide, by decide,
     (claim6_attach_headers (fun s => s) "auth_token=t7".toList).2.2.2 "t7".toList
       (by decide) (by decide),
     (claim6_attach_headers (fun s => s) "auth_token=t7".toList).2.2.1 "t7".toList
       (by decide) (by decide) (by decide)⟩⟩

/-- Is a byte a UTF-8 continuation byte (`10xxxxxx`)? -/
def contByte (b : Nat) : Bool :=
  0x80 ≤ b && b < 0xC0

/-- Sequence length announced by a UTF-8 lead byte (0 for a stray
continuation byte). -/
def leadLen (b : Nat) : Nat :=
  if b < 0x80 then 1
  else if b < 0xC0 then 0
  else if b < 0xE0 then 2
  else if b < 0xF0 then 3
  else 4

/-- Reassemble the scalar value of a complete UTF-8 sequence. -/
def decodeBytes : List Nat → Nat
  | [b] => b
  | [b0, b1] => (b0 - 0xC0) * 0x40 + (b1 - 0x80)
  | [b0, b1, b2] => (b0 - 0xE0) * 0x1000 + (b1 - 0x80) * 0x40 + (b2 - 0x80)
  | [b0, b1, b2, b3] =>
      (b0 - 0xF0) * 0x40000 + (b1 - 0x80) * 0x1000 + (b2 - 0x80) * 0x40 + (b3 - 0x80)
  | _ => 0

/-- The replacement character emitted by a non-fatal `TextDecoder` on
malformed input. -/
def replChar : Char := Char.ofNat 0xFFFD

/-- One byte fed into the incremental UTF-8 decoder state machine of
`TextDecoder` (`stream: true`): `pending` holds the bytes of an incomplete
sequence carried across reads. Returns the characters emitted and the new
pending state. Error handling (only reachable on malformed input, which the
stream theorems exclude by hypothesis) emits a replacement character. -/
def feedByte (pending : List Nat) (b : Nat) : List Char × List Nat :=
  match pending with
  | [] =>
    if b < 0x80 then ([Char.ofNat b], [])
    else if b < 0xC0 then ([replChar], [])
    else ([], [b])
  | p0 :: _ =>
    if contByte b then
      if (pending ++ [b]).length = leadLen p0 then
        ([Char.ofNat (decodeBytes (pending ++ [b]))], [])
      else ([], pending ++ [b])
    else if b < 0x80 then ([replChar, Char.ofNat b], [])
    else if b < 0xC0 then ([replChar, replChar], [])
    else ([replChar], [b])

/-- `decoder.decode(chunk, { stream: true })` from decoder state `pending`:
fold `feedByte` over the chunk, returning the decoded text and the new
pending state. -/
def utf8DecodeChunk : List Nat → List Nat → List Char × List Nat
  | p, [] => ([], p)
  | p, b :: bs =>
    let r := feedByte p b
    let r2 := utf8DecodeChunk r.2 bs
    (r.1 ++ r2.1, r2.2)

/-- UTF-8 encoding of one scalar value. -/
def utf8EncodeChar (c : Char) : List Nat :=
  let n := c.toNat
  if n < 0x80 then [n]
  else if n < 0x800 then [0xC0 + n / 0x40, 0x80 + n % 0x40]
  else if n < 0x10000 then
    [0xE0 + n / 0x1000, 0x80 + (n / 0x40) % 0x40, 0x80 + n % 0x40]
  else
    [0xF0 + n / 0x40000, 0x80 + (n / 0x1000) % 0x40, 0x80 + (n / 0x40) % 0x40,
      0x80 + n % 0x40]

/-- UTF-8 encoding of a text. -/
def utf8Encode : List Char → List Nat
  | [] => []
  | c :: cs => utf8EncodeChar c ++ utf8Encode cs

/-- The `data: ` event marker tested by `line.startsWith('data: ')`. -/
def dataMarker : List Char := ['d', 'a', 't', 'a', ':', ' ']

/-- The main-loop processing of the complete lines of one read
(`cookieUtils.ts` lines 627-645): lines without the `data: ` marker are
skipped; the payload after the marker is parsed when its trim is truthy;
parse failures (`parse` returning `none`, the model of a thrown
`JSON.parse`) are caught and skipped; a parsed frame is delivered, and a
`done: true` frame stops processing of the remaining lines (the `break`).
Returns the delivered frames and the `streamDone` flag. -/
def processLines (parse : List Char → Option ChatStreamChunk) :
    List (List Char) → List ChatStreamChunk × Bool
  | [] => ([], false)
  | line :: ls =>
    if dataMarker.isPrefixOf line then
      let d := line.drop 6
      if (jsTrim d).isEmpty then processLines parse ls
      else
        match parse d with
        | none => processLines parse ls
        | some f =>
          if f.done = some true then ([f], true)
          else
            let r := processLines parse ls
            (f :: r.1, r.2)
    else processLines parse ls

/-- The post-loop flush processing (`cookieUtils.ts` lines 656-675): the same
per-line handling but with no `break` — every line is examined. -/
def processLinesNoBreak (parse : List Char → Option ChatStreamChunk) :
    List (List Char) → List ChatStreamChunk
  | [] => []
  | line :: ls =>
    if dataMarker.isPrefixOf line then
      let d := line.drop 6
      if (jsTrim d).isEmpty then processLinesNoBreak parse ls
      else
        match parse d with
        | none => processLinesNoBreak parse ls
        | some f => f :: processLinesNoBreak parse ls
    else processLinesNoBreak parse ls

/-- The flush after the read loop (`cookieUtils.ts` lines 654-675): if the
buffer's trim is truthy, split it on newlines and process every line. -/
def flushFrames (parse : List Char → Option ChatStreamChunk) (buffer : List Char) :
    List ChatStreamChunk :=
  if (jsTrim buffer).isEmpty then []
  else processLinesNoBreak parse (splitOnC '\n' buffer)

/-- State of the `sendChatMessage` read loop: the `TextDecoder` pending
bytes, the held-back line buffer, the `streamDone` flag, and the frames
delivered to `onChunk` so far. -/
structure SCState where
  pending : List Nat
  buffer : List Char
  streamDone : Bool
  delivered : List ChatStreamChunk
deriving DecidableEq

/-- One iteration of the `sendChatMessage` while loop on a read chunk
(`cookieUtils.ts` lines 614-652): if `streamDone` was set the loop has
exited and the chunk is never read; otherwise the chunk is decoded
incrementally, appended to the buffer, the buffer is split on newlines with
the last segment held back, and the complete lines are processed. -/
def byteStep (parse : List Char → Option ChatStreamChunk) (st : SCState)
    (chunk : List Nat) : SCState :=
  if st.streamDone then st
  else
    let dr := utf8DecodeChunk st.pending chunk
    let buf := st.buffer ++ dr.1
    let segs := splitOnC '\n' buf
    let pr := processLines parse segs.dropLast
    ⟨dr.2, segs.getLastD [], pr.2, st.delivered ++ pr.1⟩

/-- The initial state of a `sendChatMessage` call. -/
def initSC : SCState := ⟨[], [], false, []⟩

/-- The loop state after all reads of the response body. -/
def loopState (parse : List Char → Option ChatStreamChunk)
    (chunks : List (List Nat)) : SCState :=
  chunks.foldl (byteStep parse) initSC

/-- The full frame delivery of one `sendChatMessage` call whose response body
arrives as the given byte chunks: the read loop followed by the flush of the
remaining buffer. `parse` models `JSON.parse` on a payload (returning `none`
for a parse error). -/
def runSendChat (parse : List Char → Option ChatStreamChunk)
    (chunks : List (List Nat)) : List ChatStreamChunk :=
  let st := loopState parse chunks
  st.delivered ++ flushFrames parse st.buffer

/-- One frame line of the wire protocol: the marker followed by the payload. -/
def lineOf (p : List Char) : List Char := dataMarker ++ p

/-- The response body text for a sequence of payloads: one `data: ` line per
payload separated by newlines, with a trailing newline exactly when `nl` is
true. -/
def bodyChars (nl : Bool) : List (List Char) → List Char
  | [] => []
  | [p] => lineOf p ++ (if nl then ['\n'] else [])
  | p :: ps => lineOf p ++ '\n' :: bodyChars nl ps

/-- A wire entry: a payload together with its parse result (`none` for a
malformed frame that `JSON.parse` rejects). -/
def entryOk (parse : List Char → Option ChatStreamChunk)
    (e : List Char × Option ChatStreamChunk) : Bool :=
  decide (parse e.1 = e.2) && decide ('\n' ∉ e.1) && !(jsTrim e.1).isEmpty

/-- No entry before the last one parses to a frame with `done: true`. -/
def noDoneExceptLast : List (List Char × Option ChatStreamChunk) → Bool
  | [] => true
  | [_] => true
  | e :: es =>
    (match e.2 with
     | some f => f.done != some true
     | none => true) && noDoneExceptLast es

/-- A valid frame sequence: each payload is newline-free with a truthy trim
and parses as recorded, and only the final entry may carry `done: true`. -/
def entriesValid (parse : List Char → Option ChatStreamChunk)
    (es : List (List Char × Option ChatStreamChunk)) : Bool :=
  es.all (entryOk parse) && noDoneExceptLast es

/-- The frames a well-behaved client must deliver: the parse results of the
well-formed entries, in order. -/
def goodFrames (es : List (List Char × Option ChatStreamChunk)) :
    List ChatStreamChunk :=
  es.filterMap Prod.snd

theorem utf8DecodeChunk_append (a : List Nat) :
    ∀ (p : List Nat) (b : List Nat),
      utf8DecodeChunk p (a ++ b) =
        ((utf8DecodeChunk p a).1 ++ (utf8DecodeChunk (utf8DecodeChunk p a).2 b).1,
          (utf8DecodeChunk (utf8DecodeChunk p a).2 b).2) := by
  induction a with
  | nil =>
    intro p b
    simp [utf8DecodeChunk]
  | cons x xs ih =>
    intro p b
    simp only [List.cons_append, utf8DecodeChunk, List.append_eq, ih, List.append_assoc]

theorem char_toNat_lt (c : Char) : c.toNat < 0x110000 := by
  rcases c.valid with h | h
  · simp only [Char.toNat]
    omega
  · simp only [Char.toNat]
    omega

theorem feedByte_ascii {b : Nat} (h : b < 0x80) :
    feedByte [] b = ([Char.ofNat b], []) := by
  simp [feedByte, h]

theorem feedByte_lead {b : Nat} (h : 0xC0 ≤ b) :
    feedByte [] b = ([], [b]) := by
  unfold feedByte
  rw [if_neg (by omega), if_neg (by omega)]

theorem feedByte_cont_mid {p0 : Nat} {rest : List Nat} {b : Nat}
    (hc : contByte b = true) (hl : ¬ (p0 :: rest ++ [b]).length = leadLen p0) :
    feedByte (p0 :: rest) b = ([], p0 :: rest ++ [b]) := by
  simp only [feedByte]
  rw [if_pos hc, if_neg hl]

theorem feedByte_cont_fin {p0 : Nat} {rest : List Nat} {b : Nat}
    (hc : contByte b = true) (hl : (p0 :: rest ++ [b]).length = leadLen p0) :
    feedByte (p0 :: rest) b = ([Char.ofNat (decodeBytes (p0 :: rest ++ [b]))], []) := by
  simp only [feedByte]
  rw [if_pos hc, if_pos hl]

theorem utf8DecodeChunk_encodeChar (c : Char) (bs : List Nat) :
    utf8DecodeChunk [] (utf8EncodeChar c ++ bs) =
      (c :: (utf8DecodeChunk [] bs).1, (utf8DecodeChunk [] bs).2) := by
  have hlt := char_toNat_lt c
  have hofnat : Char.ofNat c.toNat = c := Char.ofNat_toNat c
  unfold utf8EncodeChar
  by_cases h1 : c.toNat < 0x80
  · simp only [if_pos h1, List.cons_append, List.nil_append, utf8DecodeChunk,
      feedByte_ascii h1, hofnat]
  · by_cases h2 : c.toNat < 0x800
    · have hb0 : 0xC0 ≤ 0xC0 + c.toNat / 0x40 := by omega
      have hc1 : contByte (0x80 + c.toNat % 0x40) = true := by
        simp only [contByte, Bool.and_eq_true, decide_eq_true_eq]
        omega
      have hll : leadLen (0xC0 + c.toNat / 0x40) = 2 := by
        unfold leadLen
        rw [if_neg (by omega), if_neg (by omega), if_pos (by omega)]
      have hfin : ((0xC0 + c.toNat / 0x40) :: [] ++ [0x80 + c.toNat % 0x40]).length =
          leadLen (0xC0 + c.toNat / 0x40) := by
        simp [hll]
      have harith : decodeBytes [0xC0 + c.toNat / 0x40, 0x80 + c.toNat % 0x40] =
          c.toNat := by
        simp only [decodeBytes]
        omega
      simp only [if_neg h1, if_pos h2, List.cons_append, List.nil_append,
        utf8DecodeChunk, feedByte_lead hb0, feedByte_cont_fin hc1 hfin, harith, hofnat]
    · by_cases h3 : c.toNat < 0x10000
      · have hb0 : 0xC0 ≤ 0xE0 + c.toNat / 0x1000 := by omega
        have hc1 : contByte (0x80 + c.toNat / 0x40 % 0x40) = true := by
          simp only [contByte, Bool.and_eq_true, decide_eq_true_eq]
          omega
        have hc2 : contByte (0x80 + c.toNat % 0x40) = true := by
          simp only [contByte, Bool.and_eq_true, decide_eq_true_eq]
          omega
        have hll : leadLen (0xE0 + c.toNat / 0x1000) = 3 := by
          unfold leadLen
          rw [if_neg (by omega), if_neg (by omega), if_neg (by omega), if_pos (by omega)]
        have hmid : ¬ ((0xE0 + c.toNat / 0x1000) :: [] ++
            [0x80 + c.toNat / 0x40 % 0x40]).length = leadLen (0xE0 + c.toNat / 0x1000) := by
          simp [hll]
        have hfin : ((0xE0 + c.toNat / 0x1000) :: [0x80 + c.toNat / 0x40 % 0x40] ++
            [0x80 + c.toNat % 0x40]).length = leadLen (0xE0 + c.toNat / 0x1000) := by
          simp [hll]
        have harith : decodeBytes [0xE0 + c.toNat / 0x1000, 0x80 + c.toNat / 0x40 % 0x40,
            0x80 + c.toNat % 0x40] = c.toNat := by
          simp only [decodeBytes]
          omega
        simp only [if_neg h1, if_neg h2, if_pos h3, List.cons_append, List.nil_append,
          utf8DecodeChunk, feedByte_lead hb0, feedByte_cont_mid hc1 hmid,
          feedByte_cont_fin hc2 hfin, harith, hofnat]
      · have hb0 : 0xC0 ≤ 0xF0 + c.toNat / 0x40000 := by omega
        have hc1 : contByte (0x80 + c.toNat / 0x1000 % 0x40) = true := by
          simp only [contByte, Bool.and_eq_true, decide_eq_true_eq]
          omega
        have hc2 : contByte (0x80 + c.toNat / 0x40 % 0x40) = true := by
          simp only [contByte, Bool.and_eq_true, decide_eq_true_eq]
          omega
        have hc3 : contByte (0x80 + c.toNat % 0x40) = true := by
          simp only [contByte, Bool.and_eq_true, decide_eq_true_eq]
          omega
        have hll : leadLen (0xF0 + c.toNat / 0x40000) = 4 := by
          unfold leadLen
          rw [if_neg (by omega), if_neg (by omega), if_neg (by omega), if_neg (by omega)]
        have hmid1 : ¬ ((0xF0 + c.toNat / 0x40000) :: [] ++
            [0x80 + c.toNat / 0x1000 % 0x40]).length =
            leadLen (0xF0 + c.toNat / 0x40000) := by
          simp [hll]
        have hmid2 : ¬ ((0xF0 + c.toNat / 0x40000) :: [0x80 + c.toNat / 0x1000 % 0x40] ++
            [0x80 + c.toNat / 0x40 % 0x40]).length =
            leadLen (0xF0 + c.toNat / 0x40000) := by
          simp [hll]
        have hfin : ((0xF0 + c.toNat / 0x40000) :: [0x80 + c.toNat / 0x1000 % 0x40,
            0x80 + c.toNat / 0x40 % 0x40] ++ [0x80 + c.toNat % 0x40]).length =
            leadLen (0xF0 + c.toNat / 0x40000) := by
          simp [hll]
        have harith : decodeBytes [0xF0 + c.toNat / 0x40000, 0x80 + c.toNat / 0x1000 % 0x40,
            0x80 + c.toNat / 0x40 % 0x40, 0x80 + c.toNat % 0x40] = c.toNat := by
          simp only [decodeBytes]
          omega
        simp only [if_neg h1, if_neg h2, if_neg h3, List.cons_append, List.nil_append,
          utf8DecodeChunk, feedByte_lead hb0, feedByte_cont_mid hc1 hmid1,
          feedByte_cont_mid hc2 hmid2, feedByte_cont_fin hc3 hfin, harith, hofnat]

theorem utf8DecodeChunk_encode (cs : List Char) :
    utf8DecodeChunk [] (utf8Encode cs) = (cs, []) := by
  induction cs with
  | nil => rfl
  | cons c cs ih =>
    show utf8DecodeChunk [] (utf8EncodeChar c ++ utf8Encode cs) = _
    rw [utf8DecodeChunk_encodeChar, ih]

theorem isPrefixOf_append (xs ys : List Char) : xs.isPrefixOf (xs ++ ys) = true := by
  induction xs with
  | nil => cases ys <;> rfl
  | cons x xs ih => simp [List.isPrefixOf, ih]

theorem dataMarker_isPrefixOf (p : List Char) :
    dataMarker.isPrefixOf (dataMarker ++ p) = true :=
  isPrefixOf_append dataMarker p

theorem drop6_marker (p : List Char) : (dataMarker ++ p).drop 6 = p :=
  List.drop_left' rfl

theorem nl_not_mem_lineOf {p : List Char} (h : '\n' ∉ p) : '\n' ∉ lineOf p := by
  unfold lineOf
  intro hm
  rcases List.mem_append.mp hm with h1 | h2
  · revert h1
    decide
  · exact h h2

theorem jsTrim_lineOf_ne (p : List Char) : (jsTrim (lineOf p)).isEmpty = false := by
  have h : jsTrim ('d' :: ("ata: ".toList ++ p)) ≠ [] :=
    jsTrim_ne_nil_of_head (by decide)
  have he : lineOf p = 'd' :: ("ata: ".toList ++ p) := rfl
  rw [he]
  cases hx : (jsTrim ('d' :: ("ata: ".toList ++ p))).isEmpty
  · rfl
  · exact absurd (List.isEmpty_iff.mp hx) h

theorem getLastD_ne_nil {α : Type} {l : List α} (h : l ≠ []) (d1 d2 : α) :
    l.getLastD d1 = l.getLastD d2 := by
  cases l with
  | nil => exact absurd rfl h
  | cons x xs =>
    cases xs with
    | nil => rfl
    | cons y ys => simp only [List.getLastD_cons]

theorem append_eq_sep_split {sep : Char} :
    ∀ {L buf rest B' : List Char}, sep ∉ L → sep ∈ buf →
      buf ++ rest = L ++ sep :: B' →
      ∃ buf2, buf = L ++ sep :: buf2 ∧ buf2 ++ rest = B' := by
  intro L
  induction L with
  | nil =>
    intro buf rest B' _ hmem heq
    cases buf with
    | nil => exact absurd hmem (List.not_mem_nil sep)
    | cons b buf2 =>
      simp only [List.nil_append, List.cons_append, List.cons.injEq] at heq
      exact ⟨buf2, by rw [heq.1, List.nil_append], heq.2⟩
  | cons a L' ih =>
    intro buf rest B' hnot hmem heq
    simp only [List.mem_cons, not_or] at hnot
    cases buf with
    | nil => exact absurd hmem (List.not_mem_nil sep)
    | cons b buf2 =>
      simp only [List.cons_append, List.cons.injEq] at heq
      have hmem2 : sep ∈ buf2 := by
        rcases List.mem_cons.mp hmem with h1 | h1
        · exact absurd (heq.1 ▸ h1) hnot.1
        · exact h1
      obtain ⟨buf3, h3, h4⟩ := ih hnot.2 hmem2 heq.2
      exact ⟨buf3, by rw [heq.1, h3, List.cons_append], h4⟩

theorem entryOk_spec {parse : List Char → Option ChatStreamChunk}
    {e : List Char × Option ChatStreamChunk} (h : entryOk parse e = true) :
    parse e.1 = e.2 ∧ '\n' ∉ e.1 ∧ (jsTrim e.1).isEmpty = false := by
  unfold entryOk at h
  simp only [Bool.and_eq_true, decide_eq_true_eq, Bool.not_eq_true'] at h
  exact ⟨h.1.1, h.1.2, h.2⟩

theorem noDoneExceptLast_cons {e : List Char × Option ChatStreamChunk}
    {es : List (List Char × Option ChatStreamChunk)}
    (h : noDoneExceptLast (e :: es) = true) :
    noDoneExceptLast es = true ∧
      (es ≠ [] → ∀ f, e.2 = some f → f.done ≠ some true) := by
  cases es with
  | nil => exact ⟨rfl, fun hne => absurd rfl hne⟩
  | cons e2 es2 =>
    unfold noDoneExceptLast at h
    rw [Bool.and_eq_true] at h
    refine ⟨h.2, fun _ f hf => ?_⟩
    rw [hf] at h
    have := h.1
    simpa using this

theorem entriesValid_cons {parse : List Char → Option ChatStreamChunk}
    {e : List Char × Option ChatStreamChunk}
    {es : List (List Char × Option ChatStreamChunk)}
    (h : entriesValid parse (e :: es) = true) :
    entryOk parse e = true ∧ entriesValid parse es = true ∧
      (es ≠ [] → ∀ f, e.2 = some f → f.done ≠ some true) := by
  unfold entriesValid at h ⊢
  rw [Bool.and_eq_true, List.all_cons, Bool.and_eq_true] at h
  obtain ⟨⟨hok, hall⟩, hnd⟩ := h
  obtain ⟨hnd2, hhead⟩ := noDoneExceptLast_cons hnd
  refine ⟨hok, ?_, hhead⟩
  rw [hall, hnd2]
  rfl

theorem goodFrames_cons_none {e : List Char × Option ChatStreamChunk}
    {es : List (List Char × Option ChatStreamChunk)} (h : e.2 = none) :
    goodFrames (e :: es) = goodFrames es := by
  unfold goodFrames
  rw [List.filterMap_cons, h]

theorem goodFrames_cons_some {e : List Char × Option ChatStreamChunk}
    {es : List (List Char × Option ChatStreamChunk)} {f : ChatStreamChunk}
    (h : e.2 = some f) :
    goodFrames (e :: es) = f :: goodFrames es := by
  unfold goodFrames
  rw [List.filterMap_cons, h]

theorem goodFrames_append (es1 es2 : List (List Char × Option ChatStreamChunk)) :
    goodFrames (es1 ++ es2) = goodFrames es1 ++ goodFrames es2 :=
  List.filterMap_append es1 es2 Prod.snd

theorem bodyChars_cons_of {nl : Bool} {q : List Char} {qs : List (List Char)}
    (h : ¬ (qs = [] ∧ nl = false)) :
    bodyChars nl (q :: qs) = lineOf q ++ '\n' :: bodyChars nl qs := by
  cases qs with
  | nil =>
    cases nl with
    | false => exact absurd ⟨rfl, rfl⟩ h
    | true => rfl
  | cons q2 qs2 => rfl

theorem innerStep (parse : List Char → Option ChatStreamChunk) (nl : Bool) :
    ∀ (es : List (List Char × Option ChatStreamChunk)) (buf rest : List Char),
      entriesValid parse es = true →
      buf ++ rest = bodyChars nl (es.map Prod.fst) →
      ∃ es1 es2, es = es1 ++ es2 ∧
        (processLines parse (splitOnC '\n' buf).dropLast).1 = goodFrames es1 ∧
        (((processLines parse (splitOnC '\n' buf).dropLast).2 = false ∧
          '\n' ∉ (splitOnC '\n' buf).getLastD [] ∧
          (splitOnC '\n' buf).getLastD [] ++ rest = bodyChars nl (es2.map Prod.fst)) ∨
         ((processLines parse (splitOnC '\n' buf).dropLast).2 = true ∧
          es2 = [] ∧ rest = [] ∧ (splitOnC '\n' buf).getLastD [] = [])) := by
  intro es
  induction es with
  | nil =>
    intro buf rest _ hb
    simp only [List.map_nil, bodyChars] at hb
    obtain ⟨hbuf, hrest⟩ := List.append_eq_nil.mp hb
    subst hbuf
    subst hrest
    exact ⟨[], [], rfl, rfl, Or.inl ⟨rfl, List.not_mem_nil '\n', rfl⟩⟩
  | cons e es' ih =>
    intro buf rest hv hb
    obtain ⟨hok, hv', hheaddone⟩ := entriesValid_cons hv
    obtain ⟨hparse, hpnl, hptrim⟩ := entryOk_spec hok
    by_cases hnlb : '\n' ∈ buf
    · have hnotbase : ¬ (es'.map Prod.fst = [] ∧ nl = false) := by
        rintro ⟨hmap, hnl⟩
        have hmem : '\n' ∈ buf ++ rest := List.mem_append_left rest hnlb
        rw [hb] at hmem
        simp only [List.map_cons, hmap, hnl] at hmem
        have hbf : bodyChars false [e.1] = lineOf e.1 := by simp [bodyChars]
        rw [hbf] at hmem
        exact nl_not_mem_lineOf hpnl hmem
      have hbody : bodyChars nl ((e :: es').map Prod.fst) =
          lineOf e.1 ++ '\n' :: bodyChars nl (es'.map Prod.fst) := by
        rw [List.map_cons]
        exact bodyChars_cons_of hnotbase
      have hLnl : '\n' ∉ lineOf e.1 := nl_not_mem_lineOf hpnl
      obtain ⟨buf2, hbufeq, hbuf2⟩ :=
        append_eq_sep_split hLnl hnlb (hb.trans hbody)
      have hsplit : splitOnC '\n' buf = lineOf e.1 :: splitOnC '\n' buf2 := by
        rw [hbufeq]
        exact splitOnC_append hLnl
      have hs2ne : splitOnC '\n' buf2 ≠ [] := splitOnC_ne_nil '\n' buf2
      have hdropLast : (splitOnC '\n' buf).dropLast =
          lineOf e.1 :: (splitOnC '\n' buf2).dropLast := by
        rw [hsplit]
        exact List.dropLast_cons_of_ne_nil hs2ne
      have hlast : (splitOnC '\n' buf).getLastD [] =
          (splitOnC '\n' buf2).getLastD [] := by
        rw [hsplit, List.getLastD_cons]
        exact getLastD_ne_nil hs2ne _ _
      rw [hdropLast, hlast]
      cases he2 : e.2 with
      | none =>
        have hpn : parse e.1 = none := by rw [hparse, he2]
        have hstep : processLines parse (lineOf e.1 :: (splitOnC '\n' buf2).dropLast) =
            processLines parse ((splitOnC '\n' buf2).dropLast) := by
          simp [processLines, lineOf, dataMarker_isPrefixOf, drop6_marker, hptrim, hpn]
        rw [hstep]
        obtain ⟨es1', es2', heq', hout', hcase'⟩ := ih buf2 rest hv' hbuf2
        refine ⟨e :: es1', es2', by rw [heq', List.cons_append], ?_, hcase'⟩
        rw [goodFrames_cons_none he2, hout']
      | some f =>
        have hpf : parse e.1 = some f := by rw [hparse, he2]
        by_cases hdone : f.done = some true
        · have hes' : es' = [] := by
            by_contra hne
            exact (hheaddone hne f he2) hdone
          subst hes'
          simp only [List.map_nil, bodyChars] at hbuf2
          obtain ⟨hbuf2n, hrestn⟩ := List.append_eq_nil.mp hbuf2
          subst hbuf2n
          subst hrestn
          have hstep : processLines parse
              (lineOf e.1 :: (splitOnC '\n' ([] : List Char)).dropLast) = ([f], true) := by
            simp [processLines, splitOnC, lineOf, dataMarker_isPrefixOf, drop6_marker,
              hptrim, hpf, hdone]
          rw [hstep]
          refine ⟨[e], [], rfl, ?_, Or.inr ⟨rfl, rfl, rfl, rfl⟩⟩
          rw [goodFrames_cons_some he2]
          rfl
        · have hstep : processLines parse
              (lineOf e.1 :: (splitOnC '\n' buf2).dropLast) =
              (f :: (processLines parse ((splitOnC '\n' buf2).dropLast)).1,
               (processLines parse ((splitOnC '\n' buf2).dropLast)).2) := by
            simp [processLines, lineOf, dataMarker_isPrefixOf, drop6_marker, hptrim,
              hpf, hdone]
          rw [hstep]
          obtain ⟨es1', es2', heq', hout', hcase'⟩ := ih buf2 rest hv' hbuf2
          refine ⟨e :: es1', es2', by rw [heq', List.cons_append], ?_, hcase'⟩
          rw [goodFrames_cons_some he2, ← hout']
    · rw [splitOnC_of_not_mem hnlb]
      exact ⟨[], e :: es', rfl, rfl, Or.inl ⟨rfl, hnlb, hb⟩⟩

theorem noDoneExceptLast_suffix :
    ∀ (xs ys : List (List Char × Option ChatStreamChunk)),
      noDoneExceptLast (xs ++ ys) = true → noDoneExceptLast ys = true := by
  intro xs
  induction xs with
  | nil => intro ys h; exact h
  | cons x xs ih =>
    intro ys h
    rw [List.cons_append] at h
    exact ih ys (noDoneExceptLast_cons h).1

theorem entriesValid_suffix {parse : List Char → Option ChatStreamChunk}
    {es1 es2 : List (List Char × Option ChatStreamChunk)}
    (h : entriesValid parse (es1 ++ es2) = true) :
    entriesValid parse es2 = true := by
  unfold entriesValid at h ⊢
  rw [Bool.and_eq_true] at h
  rw [Bool.and_eq_true]
  constructor
  · have := h.1
    rw [List.all_append, Bool.and_eq_true] at this
    exact this.2
  · exact noDoneExceptLast_suffix es1 es2 h.2

theorem foldl_byteStep_done (parse : List Char → Option ChatStreamChunk) :
    ∀ (bts : List (List Nat)) (st : SCState), st.streamDone = true →
      bts.foldl (byteStep parse) st = st := by
  intro bts
  induction bts with
  | nil => intro st _; rfl
  | cons k ks ih =>
    intro st h
    rw [List.foldl_cons]
    have hb : byteStep parse st k = st := by
      unfold byteStep
      rw [if_pos h]
    rw [hb, ih st h]

theorem flushFrames_lineOf {parse : List Char → Option ChatStreamChunk}
    {e : List Char × Option ChatStreamChunk}
    (hparse : parse e.1 = e.2) (hpnl : '\n' ∉ e.1)
    (hptrim : (jsTrim e.1).isEmpty = false) :
    flushFrames parse (lineOf e.1) = goodFrames [e] := by
  unfold flushFrames
  rw [if_neg (by rw [jsTrim_lineOf_ne]; exact Bool.false_ne_true)]
  rw [splitOnC_of_not_mem (nl_not_mem_lineOf hpnl)]
  cases he2 : e.2 with
  | none =>
    have hpn : parse e.1 = none := by rw [hparse, he2]
    simp [processLinesNoBreak, lineOf, dataMarker_isPrefixOf, drop6_marker, hptrim, hpn,
      goodFrames, List.filterMap_cons, he2]
  | some f =>
    have hpf : parse e.1 = some f := by rw [hparse, he2]
    simp [processLinesNoBreak, lineOf, dataMarker_isPrefixOf, drop6_marker, hptrim, hpf,
      goodFrames, List.filterMap_cons, he2]

theorem runAuxB (parse : List Char → Option ChatStreamChunk) (nl : Bool) :
    ∀ (bts : List (List Nat)) (es : List (List Char × Option ChatStreamChunk))
      (p : List Nat) (r : List Char) (acc : List ChatStreamChunk),
      entriesValid parse es = true →
      '\n' ∉ r →
      r ++ (utf8DecodeChunk p bts.flatten).1 = bodyChars nl (es.map Prod.fst) →
      (utf8DecodeChunk p bts.flatten).2 = [] →
      (bts.foldl (byteStep parse) ⟨p, r, false, acc⟩).delivered ++
          flushFrames parse (bts.foldl (byteStep parse) ⟨p, r, false, acc⟩).buffer =
        acc ++ goodFrames es := by
  intro bts
  induction bts with
  | nil =>
    intro es p r acc hv hrnl hinv hpend
    simp only [List.flatten_nil, utf8DecodeChunk, List.append_nil] at hinv hpend
    simp only [List.foldl_nil]
    cases es with
    | nil =>
      simp only [List.map_nil, bodyChars] at hinv
      subst hinv
      rfl
    | cons e es' =>
      obtain ⟨hok, hv', _⟩ := entriesValid_cons hv
      obtain ⟨hparse, hpnl, hptrim⟩ := entryOk_spec hok
      cases es' with
      | nil =>
        cases nl with
        | true =>
          exfalso
          apply hrnl
          rw [hinv]
          simp [bodyChars]
        | false =>
          simp only [List.map_cons, List.map_nil] at hinv
          have hb1 : bodyChars false [e.1] = lineOf e.1 := by simp [bodyChars]
          rw [hb1] at hinv
          subst hinv
          rw [flushFrames_lineOf hparse hpnl hptrim]
      | cons e2 es'' =>
        exfalso
        apply hrnl
        rw [hinv]
        simp only [List.map_cons]
        rw [bodyChars_cons_of (by simp)]
        exact List.mem_append_right _ (List.mem_cons_self '\n' _)
  | cons K bts' ih =>
    intro es p r acc hv hrnl hinv hpend
    simp only [List.flatten_cons, utf8DecodeChunk_append] at hinv hpend
    rw [List.foldl_cons]
    have hbs : byteStep parse ⟨p, r, false, acc⟩ K =
        ⟨(utf8DecodeChunk p K).2,
         (splitOnC '\n' (r ++ (utf8DecodeChunk p K).1)).getLastD [],
         (processLines parse (splitOnC '\n' (r ++ (utf8DecodeChunk p K).1)).dropLast).2,
         acc ++ (processLines parse
           (splitOnC '\n' (r ++ (utf8DecodeChunk p K).1)).dropLast).1⟩ := rfl
    rw [hbs]
    obtain ⟨es1, es2, heq, hout, hcase⟩ :=
      innerStep parse nl es (r ++ (utf8DecodeChunk p K).1)
        ((utf8DecodeChunk (utf8DecodeChunk p K).2 bts'.flatten).1) hv
        ((List.append_assoc _ _ _).trans hinv)
    rcases hcase with ⟨hflag, hlnl, hlbody⟩ | ⟨hflag, hes2, hrest0, hle⟩
    · rw [hout, hflag]
      have hv2 : entriesValid parse es2 = true := entriesValid_suffix (heq ▸ hv)
      rw [ih es2 (utf8DecodeChunk p K).2
          ((splitOnC '\n' (r ++ (utf8DecodeChunk p K).1)).getLastD [])
          (acc ++ goodFrames es1) hv2 hlnl hlbody hpend]
      rw [heq, goodFrames_append, List.append_assoc]
    · rw [hout, hflag, hle]
      rw [foldl_byteStep_done parse bts' _ rfl]
      subst hes2
      rw [List.append_nil] at heq
      subst heq
      simp [flushFrames, jsTrim]

theorem runSendChat_eq_goodFrames (parse : List Char → Option ChatStreamChunk)
    (nl : Bool) {es : List (List Char × Option ChatStreamChunk)}
    {bchunks : List (List Nat)}
    (hv : entriesValid parse es = true)
    (hc : bchunks.flatten = utf8Encode (bodyChars nl (es.map Prod.fst))) :
    runSendChat parse bchunks = goodFrames es := by
  unfold runSendChat loopState initSC
  have h1 : ([] : List Char) ++ (utf8DecodeChunk [] bchunks.flatten).1 =
      bodyChars nl (es.map Prod.fst) := by
    rw [hc, utf8DecodeChunk_encode]
    simp
  have h2 : (utf8DecodeChunk [] bchunks.flatten).2 = [] := by
    rw [hc, utf8DecodeChunk_encode]
  have h := runAuxB parse nl bchunks es [] [] [] hv (List.not_mem_nil '\n') h1 h2
  simpa using h

/-- C1: for every valid frame sequence and every way of splitting its byte
encoding into read chunks (including mid-line, mid-frame and
mid-multi-byte-character splits), `sendChatMessage` delivers to `onChunk`
exactly the same frame sequence as decoding the whole response body at once
and processing it as one chunk: both equal the parse results of the
sequence's well-formed entries, in order. -/
theorem claim1_chunking_invariance (parse : List Char → Option ChatStreamChunk)
    (nl : Bool) (es : List (List Char × Option ChatStreamChunk))
    (bchunks : List (List Nat))
    (hv : entriesValid parse es = true)
    (hc : bchunks.flatten = utf8Encode (bodyChars nl (es.map Prod.fst))) :
    runSendChat parse bchunks =
      runSendChat parse [utf8Encode (bodyChars nl (es.map Prod.fst))] := by
  rw [runSendChat_eq_goodFrames parse nl hv hc,
    runSendChat_eq_goodFrames parse nl hv (by simp)]

/-- Concrete model of `JSON.parse` used in witnesses and counterexamples:
payload `D` is a done frame, payload `C` a content frame, anything else is
malformed. -/
def cexParse (p : List Char) : Option ChatStreamChunk :=
  if p = ['D'] then some ⟨none, none, some true⟩
  else if p = ['C'] then some ⟨some ['C'], none, none⟩
  else none

/-- The valid two-frame sequence used by the C1 witness. -/
def cexEntries : List (List Char × Option ChatStreamChunk) :=
  [(['C'], some ⟨some ['C'], none, none⟩), (['D'], some ⟨none, none, some true⟩)]

/-- A chunking of the C1 witness body split mid-line after three bytes. -/
def cexChunks : List (List Nat) :=
  [(utf8Encode (bodyChars true (cexEntries.map Prod.fst))).take 3,
   (utf8Encode (bodyChars true (cexEntries.map Prod.fst))).drop 3]

theorem claim1_chunking_invariance_witness :
    (entriesValid cexParse cexEntries = true ∧
      cexChunks.flatten = utf8Encode (bodyChars true (cexEntries.map Prod.fst))) ∧
    runSendChat cexParse cexChunks =
      runSendChat cexParse [utf8Encode (bodyChars true (cexEntries.map Prod.fst))] :=
  ⟨⟨by decide, by decide⟩,
    claim1_chunking_invariance cexParse true cexEntries cexChunks (by decide) (by decide)⟩

/-- C2 counterexample: on the single-chunk body `data: D\ndata: C` (a done
frame followed by a complete frame held back as the partial-line buffer),
the loop parses the done frame and sets `streamDone`, yet the post-loop
flush still parses the held-back buffer and delivers one more frame to
`onChunk` after the done frame. -/
theorem claim2_counterexample :
    runSendChat cexParse [utf8Encode (bodyChars false [['D'], ['C']])] =
      [⟨none, none, some true⟩, ⟨some ['C'], none, none⟩] ∧
    (⟨none, none, some true⟩ : ChatStreamChunk).done = some true ∧
    (loopState cexParse [utf8Encode (bodyChars false [['D'], ['C']])]).streamDone =
      true := by
  refine ⟨by decide, rfl, by decide⟩

theorem processLines_no_done (parse : List Char → Option ChatStreamChunk) :
    ∀ ls : List (List Char),
      ((processLines parse ls).2 = false →
        ∀ f ∈ (processLines parse ls).1, f.done ≠ some true) ∧
      (∀ f ∈ (processLines parse ls).1.dropLast, f.done ≠ some true) := by
  intro ls
  induction ls with
  | nil =>
    exact ⟨fun _ f hf => absurd hf (List.not_mem_nil f),
      fun f hf => absurd hf (List.not_mem_nil f)⟩
  | cons l ls ih =>
    obtain ⟨ih1, ih2⟩ := ih
    by_cases hpre : dataMarker.isPrefixOf l = true
    · by_cases htrim : (jsTrim (l.drop 6)).isEmpty = true
      · have hred : processLines parse (l :: ls) = processLines parse ls := by
          simp [processLines, hpre, htrim]
        rw [hred]
        exact ⟨ih1, ih2⟩
      · cases hp : parse (l.drop 6) with
        | none =>
          have hred : processLines parse (l :: ls) = processLines parse ls := by
            simp [processLines, hpre, htrim, hp]
          rw [hred]
          exact ⟨ih1, ih2⟩
        | some f =>
          by_cases hdone : f.done = some true
          · have hred : processLines parse (l :: ls) = ([f], true) := by
              simp [processLines, hpre, htrim, hp, hdone]
            rw [hred]
            constructor
            · intro hfalse
              simp at hfalse
            · intro g hg
              simp at hg
          · have hred : processLines parse (l :: ls) =
                (f :: (processLines parse ls).1, (processLines parse ls).2) := by
              simp [processLines, hpre, htrim, hp, hdone]
            rw [hred]
            constructor
            · intro hfl g hg
              rcases List.mem_cons.mp hg with rfl | hg2
              · exact hdone
              · exact ih1 hfl g hg2
            · intro g hg
              cases hpl : (processLines parse ls).1 with
              | nil =>
                rw [hpl] at hg
                simp at hg
              | cons q qs =>
                rw [hpl] at hg
                rw [List.dropLast_cons_of_ne_nil (by simp)] at hg
                rcases List.mem_cons.mp hg with rfl | hg2
                · exact hdone
                · exact ih2 g (by rw [hpl]; exact hg2)
    · have hred : processLines parse (l :: ls) = processLines parse ls := by
        simp [processLines, hpre]
      rw [hred]
      exact ⟨ih1, ih2⟩

theorem byteStep_no_done (parse : List Char → Option ChatStreamChunk)
    (st : SCState) (chunk : List Nat)
    (h1 : st.streamDone = false → ∀ f ∈ st.delivered, f.done ≠ some true)
    (h2 : ∀ f ∈ st.delivered.dropLast, f.done ≠ some true) :
    ((byteStep parse st chunk).streamDone = false →
      ∀ f ∈ (byteStep parse st chunk).delivered, f.done ≠ some true) ∧
    (∀ f ∈ (byteStep parse st chunk).delivered.dropLast, f.done ≠ some true) := by
  by_cases hd : st.streamDone = true
  · have hred : byteStep parse st chunk = st := by
      unfold byteStep
      rw [if_pos hd]
    rw [hred]
    exact ⟨h1, h2⟩
  · have hdf : st.streamDone = false := by
      revert hd
      cases st.streamDone <;> simp
    have hred : byteStep parse st chunk =
        ⟨(utf8DecodeChunk st.pending chunk).2,
         (splitOnC '\n' (st.buffer ++ (utf8DecodeChunk st.pending chunk).1)).getLastD [],
         (processLines parse (splitOnC '\n'
           (st.buffer ++ (utf8DecodeChunk st.pending chunk).1)).dropLast).2,
         st.delivered ++ (processLines parse (splitOnC '\n'
           (st.buffer ++ (utf8DecodeChunk st.pending chunk).1)).dropLast).1⟩ := by
      unfold byteStep
      rw [if_neg hd]
    rw [hred]
    obtain ⟨pl1, pl2⟩ := processLines_no_done parse
      (splitOnC '\n' (st.buffer ++ (utf8DecodeChunk st.pending chunk).1)).dropLast
    have hall : ∀ f ∈ st.delivered, f.done ≠ some true := h1 hdf
    constructor
    · intro hfl g hg
      rcases List.mem_append.mp hg with hga | hgb
      · exact hall g hga
      · exact pl1 hfl g hgb
    · intro g hg
      cases hout : (processLines parse (splitOnC '\n'
          (st.buffer ++ (utf8DecodeChunk st.pending chunk).1)).dropLast).1 with
      | nil =>
        rw [hout, List.append_nil] at hg
        exact hall g ((List.dropLast_sublist st.delivered).subset hg)
      | cons q qs =>
        rw [hout, List.dropLast_append_of_ne_nil _ (by simp)] at hg
        rcases List.mem_append.mp hg with hga | hgb
        · exact hall g hga
        · exact pl2 g (by rw [hout]; exact hgb)

theorem foldl_no_done (parse : List Char → Option ChatStreamChunk) :
    ∀ (bts : List (List Nat)) (st : SCState),
      (st.streamDone = false → ∀ f ∈ st.delivered, f.done ≠ some true) →
      (∀ f ∈ st.delivered.dropLast, f.done ≠ some true) →
      ((bts.foldl (byteStep parse) st).streamDone = false →
        ∀ f ∈ (bts.foldl (byteStep parse) st).delivered, f.done ≠ some true) ∧
      (∀ f ∈ (bts.foldl (byteStep parse) st).delivered.dropLast,
        f.done ≠ some true) := by
  intro bts
  induction bts with
  | nil => intro st hh1 hh2; exact ⟨hh1, hh2⟩
  | cons k ks ih =>
    intro st hh1 hh2
    rw [List.foldl_cons]
    obtain ⟨g1, g2⟩ := byteStep_no_done parse st k hh1 hh2
    exact ih (byteStep parse st k) g1 g2

/-- C2 (amended): once a frame with `done: true` is parsed in the main read
loop, no further complete line of the same read and no later read delivers
a frame — within the loop, only the final delivered frame can carry
`done: true`. However, the post-loop flush of the held-back partial-line
buffer still runs and may deliver further frames after the done frame: the
total delivery is exactly the loop delivery followed by the flush of the
final buffer. -/
theorem claim2_done_halts_loop (parse : List Char → Option ChatStreamChunk)
    (bchunks : List (List Nat)) :
    runSendChat parse bchunks =
      (loopState parse bchunks).delivered ++
        flushFrames parse (loopState parse bchunks).buffer
    ∧ ∀ f ∈ (loopState parse bchunks).delivered.dropLast, f.done ≠ some true := by
  constructor
  · rfl
  · exact (foldl_no_done parse bchunks initSC
      (fun _ f hf => absurd hf (List.not_mem_nil f))
      (fun f hf => absurd hf (List.not_mem_nil f))).2

theorem claim2_done_halts_loop_witness :
    runSendChat cexParse [utf8Encode (bodyChars true [['C'], ['C']])] =
      (loopState cexParse [utf8Encode (bodyChars true [['C'], ['C']])]).delivered ++
        flushFrames cexParse
          (loopState cexParse [utf8Encode (bodyChars true [['C'], ['C']])]).buffer ∧
    (⟨some ['C'], none, none⟩ : ChatStreamChunk).done ≠ some true :=
  ⟨(claim2_done_halts_loop cexParse [utf8Encode (bodyChars true [['C'], ['C']])]).1,
   (claim2_done_halts_loop cexParse [utf8Encode (bodyChars true [['C'], ['C']])]).2
     ⟨some ['C'], none, none⟩ (by decide)⟩

theorem processLines_congr_tail {parse : List Char → Option ChatStreamChunk}
    {X Y : List (List Char)} (l : List Char)
    (h : processLines parse X = processLines parse Y) :
    processLines parse (l :: X) = processLines parse (l :: Y) := by
  simp only [processLines, h]

theorem processLinesNoBreak_congr_tail {parse : List Char → Option ChatStreamChunk}
    {X Y : List (List Char)} (l : List Char)
    (h : processLinesNoBreak parse X = processLinesNoBreak parse Y) :
    processLinesNoBreak parse (l :: X) = processLinesNoBreak parse (l :: Y) := by
  simp only [processLinesNoBreak, h]

theorem processLines_skip_bad {parse : List Char → Option ChatStreamChunk}
    {p : List Char} (hbad : parse p = none) (ls : List (List Char)) :
    processLines parse ((dataMarker ++ p) :: ls) = processLines parse ls := by
  simp [processLines, dataMarker_isPrefixOf, drop6_marker, hbad]

theorem processLinesNoBreak_skip_bad {parse : List Char → Option ChatStreamChunk}
    {p : List Char} (hbad : parse p = none) (ls : List (List Char)) :
    processLinesNoBreak parse ((dataMarker ++ p) :: ls) =
      processLinesNoBreak parse ls := by
  simp [processLinesNoBreak, dataMarker_isPrefixOf, drop6_marker, hbad]

/-- C8: a line carrying the `data: ` marker whose payload fails to parse is
skipped without aborting the stream: both the main loop and the flush
deliver exactly what they would deliver with the malformed line removed,
and over a whole valid body (malformed entries included) the delivery is
exactly the well-formed frames, so every subsequent well-formed frame is
still delivered; the total embedding reflects that the send call does not
throw because of the malformed frame. -/
theorem claim8_malformed_skipped (parse : List Char → Option ChatStreamChunk)
    (p : List Char) (hbad : parse p = none) :
    (∀ ls1 ls2, processLines parse (ls1 ++ (dataMarker ++ p) :: ls2) =
      processLines parse (ls1 ++ ls2))
    ∧ (∀ ls1 ls2, processLinesNoBreak parse (ls1 ++ (dataMarker ++ p) :: ls2) =
      processLinesNoBreak parse (ls1 ++ ls2))
    ∧ (∀ (nl : Bool) (es : List (List Char × Option ChatStreamChunk))
        (bchunks : List (List Nat)), entriesValid parse es = true →
        bchunks.flatten = utf8Encode (bodyChars nl (es.map Prod.fst)) →
        runSendChat parse bchunks = goodFrames es) := by
  refine ⟨?_, ?_, ?_⟩
  · intro ls1
    induction ls1 with
    | nil => intro ls2; exact processLines_skip_bad hbad ls2
    | cons l ls ih =>
      intro ls2
      rw [List.cons_append, List.cons_append]
      exact processLines_congr_tail l (ih ls2)
  · intro ls1
    induction ls1 with
    | nil => intro ls2; exact processLinesNoBreak_skip_bad hbad ls2
    | cons l ls ih =>
      intro ls2
      rw [List.cons_append, List.cons_append]
      exact processLinesNoBreak_congr_tail l (ih ls2)
  · intro nl es bchunks hv hc
    exact runSendChat_eq_goodFrames parse nl hv hc

theorem claim8_malformed_skipped_witness :
    (cexParse ['Z'] = none) ∧
    processLines cexParse ([lineOf ['C']] ++ (dataMarker ++ ['Z']) :: [lineOf ['C']]) =
      processLines cexParse ([lineOf ['C']] ++ [lineOf ['C']]) ∧
    (entriesValid cexParse [(['Z'], none), (['C'], some (ChatStreamChunk.mk (some ['C']) none none))] = true ∧
      [utf8Encode (bodyChars true [['Z'], ['C']])].flatten =
        utf8Encode (bodyChars true ([(['Z'], none),
          (['C'], some (ChatStreamChunk.mk (some ['C']) none none))].map Prod.fst))) ∧
    runSendChat cexParse [utf8Encode (bodyChars true [['Z'], ['C']])] =
      goodFrames [(['Z'], none), (['C'], some (ChatStreamChunk.mk (some ['C']) none none))] :=
  ⟨by decide,
   (claim8_malformed_skipped cexParse ['Z'] (by decide)).1 [lineOf ['C']] [lineOf ['C']],
   ⟨by decide, by decide⟩,
   (claim8_malformed_skipped cexParse ['Z'] (by decide)).2.2 true
     [(['Z'], none), (['C'], some (ChatStreamChunk.mk (some ['C']) none none))]
     [utf8Encode (bodyChars true [['Z'], ['C']])] (by decide) (by decide)⟩
